import Mathlib

/-
Shallow embedding of the go-raytracer core (github.com/brendanburkhart/go-raytracer).
Source files embedded here:
  pkg/raytracing/linearalgebra.go      (Vector, Color, Material, Light, lighting models, AverageColors)
  pkg/raytracing/object/sphere.go      (Sphere.Intersect)
  internal/scene (scene.go)            (Scene, Initialize, FindIntersection, TraceRay)
  internal/camera/camera.go            (per-pixel ray generation, sample averaging and clamping)
Go float64 arithmetic is idealized as real-number arithmetic; for the one
claim that observes IEEE NaN behaviour (division of an empty ambient sum by
a zero light count) a small explicit IEEE-style float model `GFloat` is
instantiated into the same source-derived ambient computation.
-/

namespace Raytracer

/-- Vector is a 3 dimensional component representation of a vector
(linearalgebra.go). Components are Go float64, idealized as reals. -/
@[ext]
structure Vector where
  X : ℝ
  Y : ℝ
  Z : ℝ

/-- Dot product (linearalgebra.go, Vector.Dot). -/
def Vector.Dot (v other : Vector) : ℝ :=
  v.X * other.X + v.Y * other.Y + v.Z * other.Z

/-- Magnitude of vector (linearalgebra.go, Vector.Magnitude): math.Sqrt(v.Dot(v)). -/
noncomputable def Vector.Magnitude (v : Vector) : ℝ :=
  Real.sqrt (v.Dot v)

/-- Add returns the sum of this and the other vector (linearalgebra.go). -/
def Vector.Add (v other : Vector) : Vector :=
  ⟨v.X + other.X, v.Y + other.Y, v.Z + other.Z⟩

/-- Subtract returns the difference of this and the other vector (linearalgebra.go). -/
def Vector.Subtract (v other : Vector) : Vector :=
  ⟨v.X - other.X, v.Y - other.Y, v.Z - other.Z⟩

/-- Negative returns the negation of the vector (linearalgebra.go). -/
def Vector.Negative (v : Vector) : Vector :=
  ⟨-v.X, -v.Y, -v.Z⟩

/-- Scale returns a scaled vector (linearalgebra.go). -/
def Vector.Scale (v : Vector) (scale : ℝ) : Vector :=
  ⟨v.X * scale, v.Y * scale, v.Z * scale⟩

/-- Normalize returns the scaled vector and a boolean indicating success
(linearalgebra.go, Vector.Normalize): a zero-length vector has no direction
and therefore can not be normalized; the guard in the source is mag <= 0.0. -/
noncomputable def Vector.Normalize (v : Vector) : Vector × Bool :=
  let mag := v.Magnitude
  if mag ≤ 0 then (v, false)
  else (v.Scale (1 / mag), true)

/-- Ray is a 3 dimensional ray (linearalgebra.go). -/
structure Ray where
  Position : Vector
  Direction : Vector

/-- Color is a RGB color (linearalgebra.go). -/
@[ext]
structure Color where
  Red : ℝ
  Green : ℝ
  Blue : ℝ

/-- Componentwise color addition, mirroring the `color.Red += ...` accumulation
statements used by the source loops. -/
def Color.add (a b : Color) : Color :=
  ⟨a.Red + b.Red, a.Green + b.Green, a.Blue + b.Blue⟩

/-- Material describes a surface based on diffusion color and reflectance
(linearalgebra.go). -/
structure Material where
  Specular : Color
  Diffuse : Color
  Ambient : Color
  Alpha : ℝ
  Reflectance : ℝ

/-- Light describes a light source (linearalgebra.go). -/
structure Light where
  Position : Vector
  Specular : Color
  Diffuse : Color
  Ambient : Color

/-- A lighting model, the type of scene.TraceRay's `lighting` argument:
lighting(visibleLights, ambientLight, viewer, position, normal, material). -/
def LightingModel : Type :=
  List Light → Color → Vector → Vector → Vector → Material → Color

/-- Obj is the embedding of the Go interface object.Object (object.go): an
interface value is a record of its method implementations together with the
embedded material index. -/
structure Obj where
  intersect : Ray → ℝ → Bool × ℝ
  surfaceNormal : Vector → Vector
  materialID : ℤ

/-- Default Obj used to total the Go indexing expression s.Objects[currentObject]
(which the source only evaluates at an index produced by a successful
FindIntersection). -/
def defaultObj : Obj :=
  ⟨fun _ m => (false, m), fun _ => ⟨0, 0, 0⟩, 0⟩

/-- Default Material used to total the Go indexing expression
s.Materials[objects[i].MaterialID()] (validated by Scene.Initialize). -/
def defaultMaterial : Material :=
  ⟨⟨0, 0, 0⟩, ⟨0, 0, 0⟩, ⟨0, 0, 0⟩, 0, 0⟩

/-- Sphere is a 3 dimensional sphere (sphere.go); the embedded Material field of
the Go struct is the material index. -/
structure Sphere where
  Material : ℤ
  Radius : ℝ
  Center : Vector

/-- The local A of Sphere.Intersect (sphere.go): r.Direction.Dot(r.Direction). -/
def Sphere.coefA (s : Sphere) (r : Ray) : ℝ :=
  r.Direction.Dot r.Direction

/-- The local B of Sphere.Intersect (sphere.go): 2 * r.Direction.Dot(dist)
with dist = r.Position - s.Center. -/
def Sphere.coefB (s : Sphere) (r : Ray) : ℝ :=
  2 * r.Direction.Dot (r.Position.Subtract s.Center)

/-- The local C of Sphere.Intersect (sphere.go): dist.Dot(dist) - Radius^2. -/
def Sphere.coefC (s : Sphere) (r : Ray) : ℝ :=
  (r.Position.Subtract s.Center).Dot (r.Position.Subtract s.Center) - s.Radius * s.Radius

/-- The local discriminant of Sphere.Intersect (sphere.go): B*B - 4*A*C. -/
def Sphere.disc (s : Sphere) (r : Ray) : ℝ :=
  s.coefB r * s.coefB r - 4 * s.coefA r * s.coefC r

/-- The local t0 of Sphere.Intersect (sphere.go): (-B + sqrt(disc)) / (2*A). -/
noncomputable def Sphere.root1 (s : Sphere) (r : Ray) : ℝ :=
  (-s.coefB r + Real.sqrt (s.disc r)) / (2 * s.coefA r)

/-- The local t1 of Sphere.Intersect (sphere.go): (-B - sqrt(disc)) / (2*A). -/
noncomputable def Sphere.root2 (s : Sphere) (r : Ray) : ℝ :=
  (-s.coefB r - Real.sqrt (s.disc r)) / (2 * s.coefA r)

/-- Intersect returns whether there is an intersection with r within maxRange,
and if so where it occurred; if there is no intersection, the scaling value
will be maxRange (sphere.go, Sphere.Intersect): negative discriminant is a
miss, otherwise t is the smaller of the two quadratic roots and a hit is
reported exactly when 1e-4 < t < maxRange. -/
noncomputable def Sphere.Intersect (s : Sphere) (r : Ray) (maxRange : ℝ) : Bool × ℝ :=
  if s.disc r < 0 then (false, maxRange)
  else
    let t := min (s.root1 r) (s.root2 r)
    if (1e-4 : ℝ) < t ∧ t < maxRange then (true, t) else (false, maxRange)

/-- SurfaceNormal returns the normal vector to the sphere at the specified
point (sphere.go). -/
noncomputable def Sphere.SurfaceNormal (s : Sphere) (position : Vector) : Vector :=
  ((position.Subtract s.Center).Normalize).1

/-- View of a Sphere as an interface value (Go interface dispatch). -/
noncomputable def Sphere.toObj (s : Sphere) : Obj :=
  ⟨fun r maxRange => s.Intersect r maxRange, fun p => s.SurfaceNormal p, s.Material⟩

/-- Scene describes a renderable scene (scene.go). -/
structure Scene where
  Materials : List Material
  Objects : List Obj
  Lights : List Light
  ambientLight : Color

/-- The indexed loop of Scene.FindIntersection (scene.go): `currentObject` and
`t` are threaded through the iterations; `t` is always replaced by the value
returned by Intersect, and `currentObject` is set to the loop index exactly
when Intersect reported a hit. -/
def findLoop (objs : List Obj) (r : Ray) (i : ℤ) (cur : ℤ) (t : ℝ) : ℤ × ℝ :=
  match objs with
  | [] => (cur, t)
  | o :: rest =>
    let res := o.intersect r t
    findLoop rest r (i + 1) (if res.1 then i else cur) res.2

/-- FindIntersection finds the closest intersection between the specified ray
and the scene (scene.go): the scan starts from currentObject = -1 and
t = 20000.0, and an intersection was found iff currentObject was set. -/
def Scene.FindIntersection (s : Scene) (r : Ray) : Bool × ℝ × ℤ :=
  let p := findLoop s.Objects r 0 (-1) 20000
  (decide (p.1 ≠ -1), p.2, p.1)

/-- The shadow-visibility loop of Scene.TraceRay (scene.go lines 215-228): for
each light a shadow ray is cast from the hit point with unnormalized direction
light.Position - intersection, and the light is kept when either no
intersection is found or the nearest intersection's parameter exceeds 1.0.
This list is the `visibleLights` value passed to the lighting model. -/
noncomputable def Scene.visibleLights (s : Scene) (intersection : Vector) : List Light :=
  s.Lights.filter fun light =>
    let lightRay : Ray := ⟨intersection, light.Position.Subtract intersection⟩
    let res := s.FindIntersection lightRay
    if res.1 = false then true
    else if 1 < res.2.1 then true
    else false

/-- TraceRay traces a given ray to its first intersection and performs lighting
calculations (scene.go). remainingDepth is a Go int, modeled as ℤ; the
recursion happens only under the `remainingDepth > 0` guard, at depth
remainingDepth - 1. -/
noncomputable def Scene.TraceRay (s : Scene) (r : Ray) (lightStrength : ℝ)
    (remainingDepth : ℤ) (lighting : LightingModel) : Color :=
  let res := s.FindIntersection r
  if res.1 then
    let t := res.2.1
    let currentObject := res.2.2
    let scaled := r.Direction.Scale t
    let intersection := r.Position.Add scaled
    let obj := s.Objects.getD currentObject.toNat defaultObj
    let normal := obj.surfaceNormal intersection
    let material := s.Materials.getD obj.materialID.toNat defaultMaterial
    let nv := (r.Direction.Negative).Normalize
    if nv.2 then
      let viewer := nv.1
      let surfaceColor := lighting (s.visibleLights intersection) s.ambientLight viewer
        intersection normal material
      let color : Color := ⟨surfaceColor.Red * lightStrength,
        surfaceColor.Green * lightStrength, surfaceColor.Blue * lightStrength⟩
      let reflect := 2 * r.Direction.Dot normal
      let dir2 := (r.Direction.Subtract (normal.Scale reflect)).Normalize
      let r2 : Ray := ⟨intersection, dir2.1⟩
      let reflectedColor :=
        if h : 0 < remainingDepth then
          s.TraceRay r2 (lightStrength * material.Reflectance) (remainingDepth - 1) lighting
        else ⟨0, 0, 0⟩
      ⟨color.Red + reflectedColor.Red, color.Green + reflectedColor.Green,
        color.Blue + reflectedColor.Blue⟩
    else ⟨0, 0, 0⟩
  else ⟨0, 0, 0⟩
termination_by remainingDepth.toNat
decreasing_by omega

/-- Number of nested recursive reflection calls performed by Scene.TraceRay:
this definition mirrors Scene.TraceRay's control flow exactly (same guards,
same recursive arguments) and counts one for each recursive invocation. -/
noncomputable def Scene.traceRayCalls (s : Scene) (r : Ray) (lightStrength : ℝ)
    (remainingDepth : ℤ) (lighting : LightingModel) : ℕ :=
  let res := s.FindIntersection r
  if res.1 then
    let t := res.2.1
    let currentObject := res.2.2
    let scaled := r.Direction.Scale t
    let intersection := r.Position.Add scaled
    let obj := s.Objects.getD currentObject.toNat defaultObj
    let normal := obj.surfaceNormal intersection
    let material := s.Materials.getD obj.materialID.toNat defaultMaterial
    let nv := (r.Direction.Negative).Normalize
    if nv.2 then
      let reflect := 2 * r.Direction.Dot normal
      let dir2 := (r.Direction.Subtract (normal.Scale reflect)).Normalize
      let r2 : Ray := ⟨intersection, dir2.1⟩
      if h : 0 < remainingDepth then
        1 + s.traceRayCalls r2 (lightStrength * material.Reflectance)
          (remainingDepth - 1) lighting
      else 0
    else 0
  else 0
termination_by remainingDepth.toNat
decreasing_by omega

/-- The per-light accumulation step of PhongReflectance (linearalgebra.go lines
182-226): the color contribution added for one light, zero when the loop body
reaches a `continue` (back-facing light, non-normalizable light direction, or
non-normalizable reflected direction). math.Pow is modeled as Real.rpow. -/
noncomputable def phongTerm (light : Light) (viewer position normal : Vector)
    (material : Material) : Color :=
  let dist := light.Position.Subtract position
  if normal.Dot dist ≤ 0 then ⟨0, 0, 0⟩
  else
    let nl := dist.Normalize
    if nl.2 then
      let lightVec := nl.1
      let reflectDiff := normal.Scale (2 * lightVec.Dot normal)
      let nr := (reflectDiff.Subtract lightVec).Normalize
      if nr.2 then
        let reflectedLight := nr.1
        let diffCoef := max 0 (lightVec.Dot normal)
        let diffuse : Color := ⟨diffCoef * light.Diffuse.Red * material.Diffuse.Red,
          diffCoef * light.Diffuse.Green * material.Diffuse.Green,
          diffCoef * light.Diffuse.Blue * material.Diffuse.Blue⟩
        let specBase := max 0 (reflectedLight.Dot viewer)
        let specCoef0 := specBase ^ material.Alpha
        let specCoef := if specBase ≤ 0 then 0 else specCoef0
        let specular : Color := ⟨specCoef * light.Specular.Red * material.Specular.Red,
          specCoef * light.Specular.Green * material.Specular.Green,
          specCoef * light.Specular.Blue * material.Specular.Blue⟩
        ⟨diffuse.Red + specular.Red, diffuse.Green + specular.Green,
          diffuse.Blue + specular.Blue⟩
      else ⟨0, 0, 0⟩
    else ⟨0, 0, 0⟩

/-- PhongReflectance calculates the Phong reflectance model (linearalgebra.go):
the loop accumulates per-light contributions into `color`, and the global
ambient term ambientLight * material.Ambient is added once after the loop. -/
noncomputable def PhongReflectance (lights : List Light) (ambientLight : Color)
    (viewer position normal : Vector) (material : Material) : Color :=
  let color := lights.foldl
    (fun c light => c.add (phongTerm light viewer position normal material))
    (⟨0, 0, 0⟩ : Color)
  ⟨color.Red + ambientLight.Red * material.Ambient.Red,
    color.Green + ambientLight.Green * material.Ambient.Green,
    color.Blue + ambientLight.Blue * material.Ambient.Blue⟩

/-- Modelled from the spec wording of claim C5: the contribution of one
front-facing, normalizable light, with L the unit vector toward the light,
R the light vector reflected about the normal, diffuse max(0, L.N) times
light and material diffuse, and specular coefficient max(0, R.V)^alpha
forced to 0 whenever R.V is nonpositive. -/
noncomputable def phongSpecTerm (light : Light) (viewer position normal : Vector)
    (material : Material) : Color :=
  let dist := light.Position.Subtract position
  let L := dist.Scale (1 / dist.Magnitude)
  let R := (normal.Scale (2 * L.Dot normal)).Subtract L
  let diffCoef := max 0 (L.Dot normal)
  let specCoef := if R.Dot viewer ≤ 0 then 0 else (max 0 (R.Dot viewer)) ^ material.Alpha
  ⟨diffCoef * light.Diffuse.Red * material.Diffuse.Red
      + specCoef * light.Specular.Red * material.Specular.Red,
    diffCoef * light.Diffuse.Green * material.Diffuse.Green
      + specCoef * light.Specular.Green * material.Specular.Green,
    diffCoef * light.Diffuse.Blue * material.Diffuse.Blue
      + specCoef * light.Specular.Blue * material.Specular.Blue⟩

/-- Modelled from the spec wording of claim C5: a light is front-facing and
normalizable when the (unnormalized) direction toward it has positive dot
with the normal and positive magnitude. -/
noncomputable def phongVisible (position normal : Vector) (light : Light) : Bool :=
  decide (0 < normal.Dot (light.Position.Subtract position))
    && decide (0 < (light.Position.Subtract position).Magnitude)

/-- Modelled from the spec wording of claim C5: sum of phongSpecTerm over the
front-facing (normal.Dot dist positive), normalizable (positive magnitude)
lights, plus the global ambient term ambientLight * material.Ambient added
exactly once, independent of the light list. -/
noncomputable def phongSpecModel (lights : List Light) (ambientLight : Color)
    (viewer position normal : Vector) (material : Material) : Color :=
  let visible := lights.filter (phongVisible position normal)
  let color := visible.foldl
    (fun c light => c.add (phongSpecTerm light viewer position normal material))
    (⟨0, 0, 0⟩ : Color)
  ⟨color.Red + ambientLight.Red * material.Ambient.Red,
    color.Green + ambientLight.Green * material.Ambient.Green,
    color.Blue + ambientLight.Blue * material.Ambient.Blue⟩

/-- AverageColors returns the average of a slice of Color (linearalgebra.go):
channel sums divided by the length of the slice. -/
noncomputable def AverageColors (colors : List Color) : Color :=
  let sum := colors.foldl Color.add ⟨0, 0, 0⟩
  ⟨sum.Red / (colors.length : ℝ), sum.Green / (colors.length : ℝ),
    sum.Blue / (colors.length : ℝ)⟩

/-- The anti-aliasing sample rays built for one pixel by Camera.Render
(camera.go lines 170-180): an N-by-N grid of sub-pixel offsets, each mapped
to screen coordinates in [-1, 1] and turned into a primary ray by the active
lens, abstracted here as the function gen (generateLightRay with the scope
applied). Loop order is i outer, j inner, appending to the list. -/
noncomputable def pixelRays (gen : ℝ → ℝ → Ray) (antiAliasingFactor width height : ℕ)
    (pixelX pixelY : ℕ) : List Ray :=
  let antiAliasingIncrement := 1 / (antiAliasingFactor : ℝ)
  (((List.range antiAliasingFactor).map fun (i : ℕ) =>
    (List.range antiAliasingFactor).map fun (j : ℕ) =>
      let pX := ((pixelX : ℝ) + (i : ℝ) * antiAliasingIncrement) / (width : ℝ)
      let pY := ((pixelY : ℝ) + (j : ℝ) * antiAliasingIncrement) / (height : ℝ)
      gen (2 * pX - 1) (-2 * pY + 1))).flatten

/-- The color computation of Camera.renderRays (camera.go lines 194-216): each
sample ray is traced at full light strength, the sample colors are averaged
with AverageColors, and each channel is scaled to the display range and
clamped with math.Min(channel*255, 255) before being written. The final uint8
truncation of the in-range value is not modeled. The newer scene.TraceRay
signature (with an explicit lighting model) is used at the call site. -/
noncomputable def renderRays (s : Scene) (rays : List Ray) (maxRayReflections : ℤ)
    (lighting : LightingModel) : ℝ × ℝ × ℝ :=
  let colors := rays.map fun ray => s.TraceRay ray 1 maxRayReflections lighting
  let pixelColor := AverageColors colors
  (min (pixelColor.Red * 255) 255, min (pixelColor.Green * 255) 255,
    min (pixelColor.Blue * 255) 255)

/-- The material-index validation loop of Scene.Initialize (scene.go lines
139-146): returns the index of the first object whose material id is negative
or not below the number of materials, if any. -/
def findInvalid (objs : List Obj) (numMaterials : ℕ) (i : ℕ) : Option ℕ :=
  match objs with
  | [] => none
  | o :: rest =>
    if o.materialID < 0 ∨ (numMaterials : ℤ) ≤ o.materialID then some i
    else findInvalid rest numMaterials (i + 1)

/-- The scalar operations Scene.Initialize's ambient derivation performs on Go
float64 values: zero literal, addition, division and conversion from an
integer length. Instantiated at ℝ for the idealized model and at GFloat for
the IEEE division-by-zero behaviour. -/
structure FloatOps (α : Type) where
  zero : α
  add : α → α → α
  div : α → α → α
  ofNat : ℕ → α

/-- The ambient-light derivation of Scene.Initialize (scene.go lines 148-156):
sum the per-light ambient channels starting from the zero Color, then divide
each channel by float64(len(s.Lights)) with no guard for an empty light
list. -/
def deriveAmbient {α : Type} (F : FloatOps α) (ambients : List (α × α × α)) :
    α × α × α :=
  let sum := ambients.foldl
    (fun a c => (F.add a.1 c.1, F.add a.2.1 c.2.1, F.add a.2.2 c.2.2))
    (F.zero, F.zero, F.zero)
  (F.div sum.1 (F.ofNat ambients.length),
    F.div sum.2.1 (F.ofNat ambients.length),
    F.div sum.2.2 (F.ofNat ambients.length))

/-- Go float64 operations idealized over the reals. -/
noncomputable def realOps : FloatOps ℝ :=
  ⟨0, fun a b => a + b, fun a b => a / b, fun n => (n : ℝ)⟩

/-- Partial model of an IEEE 754 binary64 value as Go produces them in the
ambient derivation: NaN, a signed infinity, or a finite value (represented
exactly as a rational; the sign of zero is not modeled). -/
inductive GFloat
  | nan
  | inf (negative : Bool)
  | val (q : ℚ)
deriving DecidableEq

/-- IEEE addition on GFloat: NaN propagates, opposite infinities give NaN,
finite values add exactly. -/
def GFloat.add : GFloat → GFloat → GFloat
  | nan, _ => nan
  | _, nan => nan
  | inf a, inf b => if a = b then inf a else nan
  | inf a, val _ => inf a
  | val _, inf b => inf b
  | val a, val b => val (a + b)

/-- IEEE division on GFloat: NaN propagates, inf/inf is NaN, 0/0 is NaN, a
nonzero finite value divided by zero is a signed infinity, and finite
division is exact. -/
def GFloat.div : GFloat → GFloat → GFloat
  | nan, _ => nan
  | _, nan => nan
  | inf _, inf _ => nan
  | inf a, val b => if b < 0 then inf (!a) else inf a
  | val _, inf _ => val 0
  | val a, val b =>
    if b = 0 then (if a = 0 then nan else if a < 0 then inf true else inf false)
    else val (a / b)

/-- The FloatOps instance capturing IEEE float64 semantics of the ambient
derivation. -/
def gFloatOps : FloatOps GFloat :=
  ⟨GFloat.val 0, GFloat.add, GFloat.div, fun n => GFloat.val n⟩

/-- Initialize must be called before the Scene is used (scene.go lines
138-158): it validates every object's material index against the material
list (returning an error and leaving the scene unchanged on the first
failure), then derives the mean ambient light over all lights. The Go method
mutates its receiver and returns an error; this is modeled as returning the
optional error message together with the updated scene. -/
noncomputable def Scene.Initialize (s : Scene) : Option String × Scene :=
  match findInvalid s.Objects s.Materials.length 0 with
  | some i => (some ("invalid material id in object " ++ toString i), s)
  | none =>
    let amb := deriveAmbient realOps
      (s.Lights.map fun light => (light.Ambient.Red, light.Ambient.Green, light.Ambient.Blue))
    (none, { s with ambientLight := ⟨amb.1, amb.2.1, amb.2.2⟩ })

/-- The per-object nearest-hit contract implied by the primitive Intersect
implementations for a fixed ray: there is an optional nearest hit parameter,
strictly greater than the 1e-4 self-intersection epsilon, such that Intersect
reports it exactly when it is strictly within maxRange and otherwise returns
maxRange unchanged with no hit. -/
def HitsAt (f : Ray → ℝ → Bool × ℝ) (r : Ray) (no : Option ℝ) : Prop :=
  (∀ t ∈ no, (1e-4 : ℝ) < t) ∧
  ∀ m : ℝ, f r m = match no with
    | some t => if t < m then (true, t) else (false, m)
    | none => (false, m)

/-- A test object whose Intersect never reports a hit and returns maxRange
unchanged, satisfying the primitive contract with no nearest hit. -/
def objMissW : Obj :=
  ⟨fun _ m => (false, m), fun _ => ⟨0, 0, 0⟩, 0⟩

/-- A test object with an invalid (out of range) material index. -/
def objBadW : Obj :=
  ⟨fun _ m => (false, m), fun _ => ⟨0, 0, 0⟩, 5⟩

/-- A test scene with a single never-hit object and no lights or materials. -/
def sceneMissW : Scene :=
  ⟨[], [objMissW], [], ⟨0, 0, 0⟩⟩

/-- A test scene with one object whose material index does not resolve. -/
def sceneBadW : Scene :=
  ⟨[], [objBadW], [], ⟨0, 0, 0⟩⟩

/-- A test scene with no lights, no objects and no materials. -/
def sceneEmptyW : Scene :=
  ⟨[], [], [], ⟨0, 0, 0⟩⟩

/-- A test ray along the z axis from (0,0,-3). -/
def rayW : Ray :=
  ⟨⟨0, 0, -3⟩, ⟨0, 0, 1⟩⟩

/-- A test unit sphere at the origin. -/
def sphereW : Sphere :=
  ⟨0, 1, ⟨0, 0, 0⟩⟩

/-- A test light at (0,0,2). -/
def lightW : Light :=
  ⟨⟨0, 0, 2⟩, ⟨1, 1, 1⟩, ⟨1, 1, 1⟩, ⟨1, 1, 1⟩⟩

/-- A test material with unit channels, alpha 1 and no reflectance. -/
def materialW : Material :=
  ⟨⟨1, 1, 1⟩, ⟨1, 1, 1⟩, ⟨1, 1, 1⟩, 1, 0⟩

/-! Basic lemmas about the vector algebra. -/

theorem Vector.dot_self_nonneg (v : Vector) : 0 ≤ v.Dot v := by
  simp only [Vector.Dot]
  nlinarith [sq_nonneg v.X, sq_nonneg v.Y, sq_nonneg v.Z]

theorem Vector.magnitude_nonneg (v : Vector) : 0 ≤ v.Magnitude :=
  Real.sqrt_nonneg _

theorem Vector.dot_self_eq_zero_iff (v : Vector) :
    v.Dot v = 0 ↔ v = ⟨0, 0, 0⟩ := by
  constructor
  · intro h
    simp only [Vector.Dot] at h
    have hx : v.X * v.X = 0 := by
      nlinarith [mul_self_nonneg v.X, mul_self_nonneg v.Y, mul_self_nonneg v.Z]
    have hy : v.Y * v.Y = 0 := by
      nlinarith [mul_self_nonneg v.X, mul_self_nonneg v.Y, mul_self_nonneg v.Z]
    have hz : v.Z * v.Z = 0 := by
      nlinarith [mul_self_nonneg v.X, mul_self_nonneg v.Y, mul_self_nonneg v.Z]
    ext
    · exact mul_self_eq_zero.mp hx
    · exact mul_self_eq_zero.mp hy
    · exact mul_self_eq_zero.mp hz
  · intro h
    subst h
    simp [Vector.Dot]

theorem Vector.magnitude_eq_zero_iff (v : Vector) :
    v.Magnitude = 0 ↔ v = ⟨0, 0, 0⟩ := by
  rw [Vector.Magnitude, Real.sqrt_eq_zero (v.dot_self_nonneg)]
  exact v.dot_self_eq_zero_iff

theorem Vector.magnitude_scale (v : Vector) (k : ℝ) :
    (v.Scale k).Magnitude = |k| * v.Magnitude := by
  have h : (v.Scale k).Dot (v.Scale k) = k ^ 2 * v.Dot v := by
    simp only [Vector.Dot, Vector.Scale]
    ring
  rw [Vector.Magnitude, h, Real.sqrt_mul (sq_nonneg k), Real.sqrt_sq_eq_abs,
    Vector.Magnitude]

theorem Vector.dot_self_of_magnitude_one (v : Vector) (h : v.Magnitude = 1) :
    v.Dot v = 1 := by
  have := Real.sq_sqrt v.dot_self_nonneg
  rw [Vector.Magnitude] at h
  rw [← this, h]
  norm_num

theorem Vector.scale_one (v : Vector) : v.Scale 1 = v := by
  ext <;> simp [Vector.Scale]

/-! Basic lemmas about color accumulation. -/

theorem Color.add_zero_right (c : Color) : c.add ⟨0, 0, 0⟩ = c := by
  ext <;> simp [Color.add]

theorem Color.add_assoc (a b c : Color) : (a.add b).add c = a.add (b.add c) := by
  ext <;> simp [Color.add] <;> ring

/-- C6: Vector.Normalize fails (ok = false) iff the magnitude of v is zero; on
failure it returns v itself unchanged, and on success it returns v scaled by
1/magnitude(v), a vector of magnitude 1. -/
theorem normalize_fails_iff_zero_magnitude (v : Vector) :
    ((v.Normalize).2 = false ↔ v.Magnitude = 0)
    ∧ (v.Magnitude = 0 → v.Normalize = (v, false))
    ∧ (v.Magnitude ≠ 0 →
        v.Normalize = (v.Scale (1 / v.Magnitude), true)
        ∧ (v.Scale (1 / v.Magnitude)).Magnitude = 1) := by
  have hnn := v.magnitude_nonneg
  refine ⟨?_, ?_, ?_⟩
  · rw [Vector.Normalize]
    split_ifs with h
    · simp only [true_iff]
      linarith
    · simp only [Bool.true_eq_false, false_iff]
      intro h0
      exact h (le_of_eq h0)
  · intro h0
    rw [Vector.Normalize]
    split_ifs with h
    · rfl
    · exact absurd (le_of_eq h0) h
  · intro hne
    have hpos : 0 < v.Magnitude := lt_of_le_of_ne hnn (Ne.symm hne)
    constructor
    · rw [Vector.Normalize]
      split_ifs with h
      · linarith
      · rfl
    · rw [Vector.magnitude_scale]
      rw [abs_of_pos (by positivity)]
      field_simp

/-- Witness for C6 at the concrete vector (1,0,0), whose magnitude is 1. -/
theorem normalize_fails_iff_zero_magnitude_witness :
    (Vector.mk 1 0 0).Normalize = ((Vector.mk 1 0 0).Scale (1 / (Vector.mk 1 0 0).Magnitude), true)
    ∧ ((Vector.mk 1 0 0).Scale (1 / (Vector.mk 1 0 0).Magnitude)).Magnitude = 1 :=
  (normalize_fails_iff_zero_magnitude ⟨1, 0, 0⟩).2.2 (by
    simp [Vector.Magnitude, Vector.Dot])

/-- C1: in Scene.TraceRay, a light of the scene is included in the
visible-light list passed to the lighting model at a hit point p iff the
shadow ray from p with unnormalized direction light.Position - p either finds
no intersection in the scene or its nearest intersection parameter is
strictly greater than 1.0. -/
theorem traceRay_shadow_visibility (s : Scene) (p : Vector) (light : Light) :
    light ∈ s.visibleLights p ↔
      light ∈ s.Lights ∧
        ((s.FindIntersection ⟨p, light.Position.Subtract p⟩).1 = false
          ∨ 1 < (s.FindIntersection ⟨p, light.Position.Subtract p⟩).2.1) := by
  rw [Scene.visibleLights, List.mem_filter]
  constructor
  · rintro ⟨hmem, hcond⟩
    refine ⟨hmem, ?_⟩
    replace hcond :
        (if (s.FindIntersection ⟨p, light.Position.Subtract p⟩).1 = false then true
          else if 1 < (s.FindIntersection ⟨p, light.Position.Subtract p⟩).2.1 then true
          else false) = true := hcond
    split_ifs at hcond with h1 h2
    · exact Or.inl h1
    · exact Or.inr h2
  · rintro ⟨hmem, hcond⟩
    refine ⟨hmem, ?_⟩
    show (if (s.FindIntersection ⟨p, light.Position.Subtract p⟩).1 = false then true
      else if 1 < (s.FindIntersection ⟨p, light.Position.Subtract p⟩).2.1 then true
      else false) = true
    split_ifs with h1 h2
    · rfl
    · rfl
    · rcases hcond with h | h
      · exact absurd h h1
      · exact absurd h h2

/-- Auxiliary bound for C3: the number of recursive reflection calls is at
most the (nonnegative part of the) remaining depth, by induction on a fuel
bound for the depth. -/
theorem traceRayCalls_le_aux (s : Scene) (L : LightingModel) :
    ∀ n : ℕ, ∀ (r : Ray) (lightStrength : ℝ) (d : ℤ), d.toNat ≤ n →
      (s.traceRayCalls r lightStrength d L : ℤ) ≤ max d 0 := by
  intro n
  induction n with
  | zero =>
    intro r ls d hd
    have hd0 : ¬ 0 < d := by omega
    rw [Scene.traceRayCalls]
    dsimp only
    split_ifs with h1 h2
    · simpa using le_max_right d 0
    · simpa using le_max_right d 0
    · simpa using le_max_right d 0
  | succ n ih =>
    intro r ls d hd
    rw [Scene.traceRayCalls]
    dsimp only
    split_ifs with h1 h2 h3
    · have hrec : ∀ (r2 : Ray) (ls2 : ℝ),
          (s.traceRayCalls r2 ls2 (d - 1) L : ℤ) ≤ max (d - 1) 0 :=
        fun r2 ls2 => ih r2 ls2 (d - 1) (by omega)
      have hd2 : max d 0 = d := max_eq_left (by omega)
      have hd1 : max (d - 1) 0 = d - 1 := max_eq_left (by omega)
      rw [hd2]
      push_cast
      refine le_trans (add_le_add_left (hrec _ _) 1) ?_
      rw [hd1]
      omega
    · simpa using le_max_right d 0
    · simpa using le_max_right d 0
    · simpa using le_max_right d 0

/-- C3: Scene.TraceRay terminates for every scene, ray, light strength,
lighting model and remaining depth (it is a total function of this
development), making at most remainingDepth nested recursive reflection
calls: traceRayCalls mirrors TraceRay's recursion exactly and is bounded by
max remainingDepth 0. -/
theorem traceRay_depth_bound (s : Scene) (r : Ray) (lightStrength : ℝ)
    (d : ℤ) (L : LightingModel) :
    (s.traceRayCalls r lightStrength d L : ℤ) ≤ max d 0 :=
  traceRayCalls_le_aux s L d.toNat r lightStrength d le_rfl

/-- The validation loop finds no invalid object iff every object's material
index is within the material list. -/
theorem findInvalid_none_iff (nm : ℕ) :
    ∀ (objs : List Obj) (i : ℕ),
      findInvalid objs nm i = none ↔
        ∀ o ∈ objs, ¬(o.materialID < 0 ∨ (nm : ℤ) ≤ o.materialID) := by
  intro objs
  induction objs with
  | nil => intro i; simp [findInvalid]
  | cons o rest ih =>
    intro i
    rw [findInvalid]
    split_ifs with h
    · constructor
      · intro hh
        exact absurd hh (by simp)
      · intro hall
        exact absurd h (hall o (by simp))
    · rw [ih (i + 1)]
      constructor
      · intro hall o' ho'
        rcases List.mem_cons.mp ho' with rfl | hmem
        · exact h
        · exact hall o' hmem
      · intro hall o' ho'
        exact hall o' (List.mem_cons_of_mem o ho')

/-- C7: Scene.Initialize errors iff some object's material index is negative
or at least the number of materials; on error it returns before the ambient
computation, leaving the scene (and its ambient light) unchanged; and the
intersection query never consults the material list at all, so the
validation cannot recur there. -/
theorem initialize_validates_materials (s : Scene) :
    ((s.Initialize).1.isSome = true ↔
        ∃ o ∈ s.Objects, o.materialID < 0 ∨ (s.Materials.length : ℤ) ≤ o.materialID)
    ∧ ((s.Initialize).1.isSome = true → (s.Initialize).2 = s)
    ∧ ∀ (mats : List Material) (r : Ray),
        Scene.FindIntersection { s with Materials := mats } r = s.FindIntersection r := by
  have hiff := findInvalid_none_iff s.Materials.length s.Objects 0
  refine ⟨?_, ?_, fun mats r => rfl⟩
  · rcases h : findInvalid s.Objects s.Materials.length 0 with _ | i
    · simp only [Scene.Initialize, h, Option.isSome_none, Bool.false_eq_true, false_iff]
      intro hex
      rcases hex with ⟨o, ho, hbad⟩
      exact (hiff.mp h) o ho hbad
    · simp only [Scene.Initialize, h, Option.isSome_some, true_iff]
      by_contra hno
      push_neg at hno
      have hnone : findInvalid s.Objects s.Materials.length 0 = none := by
        refine hiff.mpr ?_
        intro o ho
        have h2 := hno o ho
        intro hbad
        rcases hbad with hb | hb <;> omega
      rw [h] at hnone
      cases hnone
  · intro hsome
    rcases h : findInvalid s.Objects s.Materials.length 0 with _ | i
    · simp [Scene.Initialize, h] at hsome
    · simp [Scene.Initialize, h]

/-- Witness for C7 at a concrete scene holding one object with material index
5 and an empty material list. -/
theorem initialize_validates_materials_witness :
    (sceneBadW.Initialize).1.isSome = true ∧ (sceneBadW.Initialize).2 = sceneBadW := by
  have h := initialize_validates_materials sceneBadW
  have hsome : (sceneBadW.Initialize).1.isSome = true := by
    rw [h.1]
    refine ⟨objBadW, by simp [sceneBadW], Or.inr ?_⟩
    simp [objBadW, sceneBadW]
  exact ⟨hsome, h.2.1 hsome⟩

/-- C10: for a scene with no lights (and valid material indices everywhere),
Scene.Initialize still succeeds, and the ambient derivation divides a zero
sum by a zero light count: under IEEE float64 semantics (the GFloat
instantiation of the same source computation) every derived ambient channel
is NaN rather than zero. -/
theorem initialize_empty_lights_division (s : Scene) (hL : s.Lights = [])
    (hM : ∀ o ∈ s.Objects, ¬(o.materialID < 0 ∨ (s.Materials.length : ℤ) ≤ o.materialID)) :
    (s.Initialize).1 = none
    ∧ (∀ f : Light → GFloat × GFloat × GFloat,
        deriveAmbient gFloatOps (s.Lights.map f) = (GFloat.nan, GFloat.nan, GFloat.nan))
    ∧ GFloat.nan ≠ gFloatOps.zero := by
  have h0 : findInvalid s.Objects s.Materials.length 0 = none :=
    (findInvalid_none_iff s.Materials.length s.Objects 0).mpr hM
  refine ⟨by simp [Scene.Initialize, h0], ?_, by simp [gFloatOps]⟩
  intro f
  rw [hL]
  rfl

/-- Witness for C10 at a concrete scene with no lights, no objects and no
materials. -/
theorem initialize_empty_lights_division_witness :
    deriveAmbient gFloatOps
        (sceneEmptyW.Lights.map fun _ => (GFloat.val 0, GFloat.val 0, GFloat.val 0))
      = (GFloat.nan, GFloat.nan, GFloat.nan) :=
  (initialize_empty_lights_division sceneEmptyW rfl (by simp [sceneEmptyW])).2.1 _

/-- Sum of a constant over a mapped list. -/
theorem sum_map_const_nat (l : List ℕ) (c : ℕ) : (l.map fun _ => c).sum = l.length * c := by
  rw [List.map_const']
  simp [List.sum_replicate, Nat.smul_one_eq_cast]

/-- C8: each output pixel is computed from exactly N*N anti-aliasing sample
rays (N the anti-aliasing factor, no sample dropped): the written color is
the per-channel arithmetic mean of the traced sample colors (channel sums
divided by N*N), scaled to the display range and clamped to the display
maximum 255, so no written channel exceeds 255. -/
theorem renderRays_average_clamp (s : Scene) (gen : ℝ → ℝ → Ray)
    (antiAliasingFactor width height pixelX pixelY : ℕ) (d : ℤ) (L : LightingModel) :
    (pixelRays gen antiAliasingFactor width height pixelX pixelY).length
        = antiAliasingFactor * antiAliasingFactor
    ∧ renderRays s (pixelRays gen antiAliasingFactor width height pixelX pixelY) d L =
        (min ((((pixelRays gen antiAliasingFactor width height pixelX pixelY).map
              fun ray => s.TraceRay ray 1 d L).foldl Color.add ⟨0, 0, 0⟩).Red
            / ((antiAliasingFactor : ℝ) * (antiAliasingFactor : ℝ)) * 255) 255,
          min ((((pixelRays gen antiAliasingFactor width height pixelX pixelY).map
              fun ray => s.TraceRay ray 1 d L).foldl Color.add ⟨0, 0, 0⟩).Green
            / ((antiAliasingFactor : ℝ) * (antiAliasingFactor : ℝ)) * 255) 255,
          min ((((pixelRays gen antiAliasingFactor width height pixelX pixelY).map
              fun ray => s.TraceRay ray 1 d L).foldl Color.add ⟨0, 0, 0⟩).Blue
            / ((antiAliasingFactor : ℝ) * (antiAliasingFactor : ℝ)) * 255) 255)
    ∧ (renderRays s (pixelRays gen antiAliasingFactor width height pixelX pixelY) d L).1 ≤ 255
    ∧ (renderRays s (pixelRays gen antiAliasingFactor width height pixelX pixelY) d L).2.1 ≤ 255
    ∧ (renderRays s (pixelRays gen antiAliasingFactor width height pixelX pixelY) d L).2.2 ≤ 255 := by
  have hlen : (pixelRays gen antiAliasingFactor width height pixelX pixelY).length
      = antiAliasingFactor * antiAliasingFactor := by
    rw [pixelRays]
    rw [List.length_flatten, List.map_map]
    simp only [Function.comp_def, List.length_map, List.length_range]
    rw [sum_map_const_nat]
    simp [List.length_range]
  have heq : renderRays s (pixelRays gen antiAliasingFactor width height pixelX pixelY) d L =
      (min ((((pixelRays gen antiAliasingFactor width height pixelX pixelY).map
            fun ray => s.TraceRay ray 1 d L).foldl Color.add ⟨0, 0, 0⟩).Red
          / ((antiAliasingFactor : ℝ) * (antiAliasingFactor : ℝ)) * 255) 255,
        min ((((pixelRays gen antiAliasingFactor width height pixelX pixelY).map
            fun ray => s.TraceRay ray 1 d L).foldl Color.add ⟨0, 0, 0⟩).Green
          / ((antiAliasingFactor : ℝ) * (antiAliasingFactor : ℝ)) * 255) 255,
        min ((((pixelRays gen antiAliasingFactor width height pixelX pixelY).map
            fun ray => s.TraceRay ray 1 d L).foldl Color.add ⟨0, 0, 0⟩).Blue
          / ((antiAliasingFactor : ℝ) * (antiAliasingFactor : ℝ)) * 255) 255) := by
    rw [renderRays]
    simp only [AverageColors, List.length_map, hlen]
    push_cast
    rfl
  refine ⟨hlen, heq, ?_, ?_, ?_⟩
  · rw [heq]; exact min_le_right _ _
  · rw [heq]; exact min_le_right _ _
  · rw [heq]; exact min_le_right _ _

/-- Invariant of the Scene.FindIntersection scan: provided every object obeys
the nearest-hit contract for the ray, the loop either leaves the accumulator
untouched with every object missing at the initial range, or it returns the
index (offset from the initial loop counter) of an object achieving the
nearest hit, with a final distance strictly between the epsilon and the
initial range at which no object reports any hit. -/
theorem findLoop_spec (r : Ray) :
    ∀ (objs : List Obj) (i cur : ℤ) (t0 : ℝ),
      (∀ o ∈ objs, ∃ no, HitsAt o.intersect r no) →
      (findLoop objs r i cur t0 = (cur, t0)
        ∧ ∀ o ∈ objs, o.intersect r t0 = (false, t0))
      ∨ (∃ j : ℕ, ∃ o : Obj, objs[j]? = some o
          ∧ (findLoop objs r i cur t0).1 = i + j
          ∧ o.intersect r t0 = (true, (findLoop objs r i cur t0).2)
          ∧ (1e-4 : ℝ) < (findLoop objs r i cur t0).2
          ∧ (findLoop objs r i cur t0).2 < t0
          ∧ ∀ o2 ∈ objs, (o2.intersect r ((findLoop objs r i cur t0).2)).1 = false) := by
  intro objs
  induction objs with
  | nil =>
    intro i cur t0 H
    left
    exact ⟨rfl, by simp⟩
  | cons o rest ih =>
    intro i cur t0 H
    obtain ⟨no, hno⟩ := H o (List.mem_cons_self o rest)
    have Hrest : ∀ o2 ∈ rest, ∃ no2, HitsAt o2.intersect r no2 :=
      fun o2 h2 => H o2 (List.mem_cons_of_mem o h2)
    cases no with
    | none =>
      have hstep : o.intersect r t0 = (false, t0) := hno.2 t0
      have hfl : findLoop (o :: rest) r i cur t0 = findLoop rest r (i + 1) cur t0 := by
        rw [findLoop, hstep]
        rfl
      rcases ih (i + 1) cur t0 Hrest with ⟨h1, h2⟩ |
        ⟨j, oj, hget, hidx, hhit, heps, hlt, hmiss⟩
      · left
        constructor
        · rw [hfl, h1]
        · intro o2 ho2
          rcases List.mem_cons.mp ho2 with rfl | hm
          · exact hstep
          · exact h2 o2 hm
      · right
        refine ⟨j + 1, oj, by simpa using hget, ?_, ?_, ?_, ?_, ?_⟩
        · rw [hfl, hidx]; push_cast; ring
        · rw [hfl]; exact hhit
        · rw [hfl]; exact heps
        · rw [hfl]
          exact lt_of_lt_of_le hlt le_rfl
        · intro o2 ho2
          rcases List.mem_cons.mp ho2 with rfl | hm
          · have hx : o2.intersect r ((findLoop (o2 :: rest) r i cur t0).2)
                = (false, (findLoop (o2 :: rest) r i cur t0).2) :=
              hno.2 _
            rw [hx]
          · rw [hfl]; exact hmiss o2 hm
    | some u =>
      have hepsu : (1e-4 : ℝ) < u := hno.1 u rfl
      by_cases hu : u < t0
      · have hstep0 : o.intersect r t0 = if u < t0 then (true, u) else (false, t0) :=
          hno.2 t0
        have hstep : o.intersect r t0 = (true, u) := by
          rw [hstep0, if_pos hu]
        have hfl : findLoop (o :: rest) r i cur t0 = findLoop rest r (i + 1) i u := by
          rw [findLoop, hstep]
          rfl
        rcases ih (i + 1) i u Hrest with ⟨h1, h2⟩ |
          ⟨j, oj, hget, hidx, hhit, heps, hlt, hmiss⟩
        · right
          refine ⟨0, o, by simp, ?_, ?_, ?_, ?_, ?_⟩
          · rw [hfl, h1]; simp
          · rw [hfl, h1]; exact hstep
          · rw [hfl, h1]; exact hepsu
          · rw [hfl, h1]; exact hu
          · intro o2 ho2
            rcases List.mem_cons.mp ho2 with rfl | hm
            · rw [hfl, h1]
              have hx : o2.intersect r u = if u < u then (true, u) else (false, u) :=
                hno.2 u
              rw [hx, if_neg (lt_irrefl u)]
            · rw [hfl, h1]
              rw [h2 o2 hm]
        · right
          have hojmem : oj ∈ rest := by
            have := List.getElem?_eq_some_iff.mp hget
            obtain ⟨hjlt, hjeq⟩ := this
            exact hjeq ▸ List.getElem_mem hjlt
          obtain ⟨no2, hno2⟩ := Hrest oj hojmem
          refine ⟨j + 1, oj, by simpa using hget, ?_, ?_, ?_, ?_, ?_⟩
          · rw [hfl, hidx]; push_cast; ring
          · -- transfer the hit of oj from range u to range t0
            have h2u := hno2.2 u
            rw [hhit] at h2u
            cases no2 with
            | none => exact absurd h2u.symm (by simp)
            | some v =>
              have h2u' : (true, (findLoop rest r (i + 1) i u).2)
                  = if v < u then (true, v) else (false, u) := h2u
              by_cases hvu : v < u
              · rw [if_pos hvu] at h2u'
                have hv : v = (findLoop rest r (i + 1) i u).2 := (Prod.mk.injEq _ _ _ _ ▸ h2u').2.symm
                have hx : oj.intersect r t0 = if v < t0 then (true, v) else (false, t0) :=
                  hno2.2 t0
                rw [hfl]
                rw [hx, if_pos (lt_trans hvu hu), hv]
              · rw [if_neg hvu] at h2u'
                exact absurd h2u' (by simp)
          · rw [hfl]; exact heps
          · rw [hfl]; exact lt_trans hlt hu
          · intro o2 ho2
            rcases List.mem_cons.mp ho2 with rfl | hm
            · have hx : o2.intersect r ((findLoop (o2 :: rest) r i cur t0).2)
                  = if u < (findLoop (o2 :: rest) r i cur t0).2
                    then (true, u) else (false, (findLoop (o2 :: rest) r i cur t0).2) :=
                hno.2 _
              rw [hx, if_neg]
              rw [hfl]
              exact not_lt.mpr (le_of_lt hlt)
            · rw [hfl]; exact hmiss o2 hm
      · have hstep0 : o.intersect r t0 = if u < t0 then (true, u) else (false, t0) :=
          hno.2 t0
        have hstep : o.intersect r t0 = (false, t0) := by
          rw [hstep0, if_neg hu]
        have hfl : findLoop (o :: rest) r i cur t0 = findLoop rest r (i + 1) cur t0 := by
          rw [findLoop, hstep]
          rfl
        rcases ih (i + 1) cur t0 Hrest with ⟨h1, h2⟩ |
          ⟨j, oj, hget, hidx, hhit, heps, hlt, hmiss⟩
        · left
          constructor
          · rw [hfl, h1]
          · intro o2 ho2
            rcases List.mem_cons.mp ho2 with rfl | hm
            · exact hstep
            · exact h2 o2 hm
        · right
          refine ⟨j + 1, oj, by simpa using hget, ?_, ?_, ?_, ?_, ?_⟩
          · rw [hfl, hidx]; push_cast; ring
          · rw [hfl]; exact hhit
          · rw [hfl]; exact heps
          · rw [hfl]; exact hlt
          · intro o2 ho2
            rcases List.mem_cons.mp ho2 with rfl | hm
            · have hx : o2.intersect r ((findLoop (o2 :: rest) r i cur t0).2)
                  = if u < (findLoop (o2 :: rest) r i cur t0).2
                    then (true, u) else (false, (findLoop (o2 :: rest) r i cur t0).2) :=
                hno.2 _
              rw [hx, if_neg]
              rw [hfl]
              have hfin : (findLoop rest r (i + 1) cur t0).2 < t0 := hlt
              intro hcon
              have := le_of_not_lt hu
              linarith
            · rw [hfl]; exact hmiss o2 hm

/-- Sphere.Intersect obeys the nearest-hit contract: its nearest hit is the
smaller quadratic root when the discriminant is nonnegative and that root
exceeds the epsilon; otherwise it has no hit, and in every case a miss
returns maxRange unchanged. -/
theorem sphere_contract (sp : Sphere) (r : Ray) : ∃ no, HitsAt sp.Intersect r no := by
  by_cases hd : sp.disc r < 0
  · refine ⟨none, by simp, ?_⟩
    intro m
    show sp.Intersect r m = (false, m)
    rw [Sphere.Intersect, if_pos hd]
  · by_cases he : (1e-4 : ℝ) < min (sp.root1 r) (sp.root2 r)
    · refine ⟨some (min (sp.root1 r) (sp.root2 r)), ?_, ?_⟩
      · intro t ht
        simp only [Option.mem_def, Option.some.injEq] at ht
        rw [← ht]
        exact he
      · intro m
        show sp.Intersect r m =
          if min (sp.root1 r) (sp.root2 r) < m
          then (true, min (sp.root1 r) (sp.root2 r)) else (false, m)
        rw [Sphere.Intersect, if_neg hd]
        dsimp only
        by_cases htm : min (sp.root1 r) (sp.root2 r) < m
        · rw [if_pos ⟨he, htm⟩, if_pos htm]
        · rw [if_neg (by tauto), if_neg htm]
    · refine ⟨none, by simp, ?_⟩
      intro m
      show sp.Intersect r m = (false, m)
      rw [Sphere.Intersect, if_neg hd]
      dsimp only
      rw [if_neg (by tauto)]

/-- C2: under the per-object nearest-hit contract, Scene.FindIntersection
reports an intersection iff some object reports a hit at the initial range;
on a hit, the returned distance lies strictly between 1e-4 and 20000, the
returned index names an object achieving that distance, and no object in the
scene reports a hit strictly closer than the returned distance (so it is the
globally nearest valid hit); and Sphere.Intersect itself satisfies the
contract, in particular returning maxRange unchanged on a miss. -/
theorem findIntersection_nearest_hit :
    (∀ (s : Scene) (r : Ray),
      (∀ o ∈ s.Objects, ∃ no, HitsAt o.intersect r no) →
      ((s.FindIntersection r).1 = true ↔ ∃ o ∈ s.Objects, (o.intersect r 20000).1 = true)
      ∧ ((s.FindIntersection r).1 = true →
          ((1e-4 : ℝ) < (s.FindIntersection r).2.1 ∧ (s.FindIntersection r).2.1 < 20000)
          ∧ (∃ j : ℕ, ∃ o : Obj, s.Objects[j]? = some o
              ∧ (s.FindIntersection r).2.2 = (j : ℤ)
              ∧ o.intersect r 20000 = (true, (s.FindIntersection r).2.1))
          ∧ ∀ o ∈ s.Objects, (o.intersect r ((s.FindIntersection r).2.1)).1 = false))
    ∧ ∀ (sp : Sphere) (r : Ray), ∃ no, HitsAt sp.Intersect r no := by
  constructor
  · intro s r H
    rcases findLoop_spec r s.Objects 0 (-1) 20000 H with ⟨h1, h2⟩ |
      ⟨j, o, hget, hidx, hhit, heps, hlt, hmiss⟩
    · have hfi : s.FindIntersection r = (false, 20000, -1) := by
        simp only [Scene.FindIntersection]
        rw [h1]
        simp
      constructor
      · rw [hfi]
        simp only [Bool.false_eq_true, false_iff]
        rintro ⟨o, ho, hht⟩
        rw [h2 o ho] at hht
        exact absurd hht (by simp)
      · rw [hfi]
        intro hcon
        exact absurd hcon (by simp)
    · have homem : o ∈ s.Objects := by
        obtain ⟨hjlt, hjeq⟩ := List.getElem?_eq_some_iff.mp hget
        exact hjeq ▸ List.getElem_mem hjlt
      have hfi1 : (s.FindIntersection r).1 = true := by
        simp only [Scene.FindIntersection]
        rw [hidx]
        rw [decide_eq_true_eq]
        omega
      constructor
      · refine ⟨fun _ => ⟨o, homem, by rw [hhit]⟩, fun _ => hfi1⟩
      · intro _
        refine ⟨⟨heps, hlt⟩, ⟨j, o, hget, ?_, hhit⟩, hmiss⟩
        show (findLoop s.Objects r 0 (-1) 20000).1 = (j : ℤ)
        rw [hidx]
        ring
  · exact sphere_contract

/-- Witness for C2 at a concrete scene holding one object that never hits. -/
theorem findIntersection_nearest_hit_witness :
    (sceneMissW.FindIntersection rayW).1 = true ↔
      ∃ o ∈ sceneMissW.Objects, (o.intersect rayW 20000).1 = true :=
  (findIntersection_nearest_hit.1 sceneMissW rayW (by
    intro o ho
    have ho2 : o = objMissW := by simpa [sceneMissW] using ho
    subst ho2
    exact ⟨none, by simp, fun m => rfl⟩)).1

/-- C9: the scan is capped at the hardcoded initial range 20000: if every
object's nearest hit (per the contract) lies at 20000 or beyond, the scan
reports no intersection at all, returning exactly (false, 20000, -1); and
whenever no intersection is reported, the returned distance is exactly the
20000 sentinel with index -1. -/
theorem findIntersection_range_cap :
    (∀ (s : Scene) (r : Ray),
      (∀ o ∈ s.Objects, ∃ no, HitsAt o.intersect r no ∧ ∀ t ∈ no, (20000 : ℝ) ≤ t) →
      s.FindIntersection r = (false, 20000, -1))
    ∧ ∀ (s : Scene) (r : Ray),
      (∀ o ∈ s.Objects, ∃ no, HitsAt o.intersect r no) →
      (s.FindIntersection r).1 = false →
      (s.FindIntersection r).2.1 = 20000 ∧ (s.FindIntersection r).2.2 = -1 := by
  constructor
  · intro s r H
    have H2 : ∀ o ∈ s.Objects, ∃ no, HitsAt o.intersect r no := by
      intro o ho
      obtain ⟨no, hh, _⟩ := H o ho
      exact ⟨no, hh⟩
    rcases findLoop_spec r s.Objects 0 (-1) 20000 H2 with ⟨h1, h2⟩ |
      ⟨j, o, hget, hidx, hhit, heps, hlt, hmiss⟩
    · simp only [Scene.FindIntersection]
      rw [h1]
      simp
    · exfalso
      have homem : o ∈ s.Objects := by
        obtain ⟨hjlt, hjeq⟩ := List.getElem?_eq_some_iff.mp hget
        exact hjeq ▸ List.getElem_mem hjlt
      obtain ⟨no, hh, hbound⟩ := H o homem
      have h20 := hh.2 20000
      rw [hhit] at h20
      cases no with
      | none => exact absurd h20 (by simp)
      | some v =>
        have hv20 : (20000 : ℝ) ≤ v := hbound v rfl
        have h20' : (true, (findLoop s.Objects r 0 (-1) 20000).2)
            = if v < 20000 then (true, v) else (false, 20000) := h20
        rw [if_neg (not_lt.mpr hv20)] at h20'
        exact absurd h20' (by simp)
  · intro s r H hfalse
    rcases findLoop_spec r s.Objects 0 (-1) 20000 H with ⟨h1, h2⟩ |
      ⟨j, o, hget, hidx, hhit, heps, hlt, hmiss⟩
    · constructor
      · show (findLoop s.Objects r 0 (-1) 20000).2 = 20000
        rw [h1]
      · show (findLoop s.Objects r 0 (-1) 20000).1 = -1
        rw [h1]
    · exfalso
      have htrue : (s.FindIntersection r).1 = true := by
        simp only [Scene.FindIntersection]
        rw [hidx]
        rw [decide_eq_true_eq]
        omega
      rw [hfalse] at htrue
      exact absurd htrue (by simp)

/-- Witness for C9 at a concrete scene holding one object that never hits,
whose (absent) nearest hit vacuously lies beyond 20000. -/
theorem findIntersection_range_cap_witness :
    sceneMissW.FindIntersection rayW = (false, 20000, -1) :=
  findIntersection_range_cap.1 sceneMissW rayW (by
    intro o ho
    have ho2 : o = objMissW := by simpa [sceneMissW] using ho
    subst ho2
    exact ⟨none, ⟨by simp, fun m => rfl⟩, by simp⟩)

/-- The quadratic of Sphere.Intersect factors through its two roots when the
leading coefficient is nonzero and the discriminant is nonnegative. -/
theorem sphere_quad_factor (sp : Sphere) (r : Ray) (hd : 0 ≤ sp.disc r)
    (hA : sp.coefA r ≠ 0) (w : ℝ) :
    sp.coefA r * w ^ 2 + sp.coefB r * w + sp.coefC r
      = sp.coefA r * ((w - sp.root1 r) * (w - sp.root2 r)) := by
  have hD : Real.sqrt (sp.disc r) * Real.sqrt (sp.disc r)
      = sp.coefB r * sp.coefB r - 4 * sp.coefA r * sp.coefC r := by
    rw [Real.mul_self_sqrt hd, Sphere.disc]
  rw [Sphere.root1, Sphere.root2]
  field_simp
  linear_combination sp.coefA r * hD

/-- C4: Sphere.Intersect solves the quadratic |O + tD - C|^2 = r^2: a negative
discriminant is reported as (false, maxRange); otherwise, with t the smaller
of the two roots, the result is (true, t) exactly when 1e-4 < t < maxRange
and (false, maxRange) otherwise — in particular a smaller root at or below
1e-4 is a miss regardless of the larger root — and (for nondegenerate rays)
the two roots are exactly the solutions of the sphere equation. -/
theorem sphere_intersect_quadratic (sp : Sphere) (r : Ray) (maxRange : ℝ) :
    (sp.disc r < 0 → sp.Intersect r maxRange = (false, maxRange))
    ∧ (0 ≤ sp.disc r →
        sp.Intersect r maxRange =
          (if (1e-4 : ℝ) < min (sp.root1 r) (sp.root2 r)
              ∧ min (sp.root1 r) (sp.root2 r) < maxRange
            then (true, min (sp.root1 r) (sp.root2 r)) else (false, maxRange))
        ∧ (min (sp.root1 r) (sp.root2 r) ≤ 1e-4 →
            sp.Intersect r maxRange = (false, maxRange)))
    ∧ (0 ≤ sp.disc r → sp.coefA r ≠ 0 → ∀ u : ℝ,
        (((r.Position.Add (r.Direction.Scale u)).Subtract sp.Center).Dot
          ((r.Position.Add (r.Direction.Scale u)).Subtract sp.Center)
            = sp.Radius * sp.Radius)
        ↔ (u = sp.root1 r ∨ u = sp.root2 r)) := by
  refine ⟨?_, ?_, ?_⟩
  · intro hd
    rw [Sphere.Intersect, if_pos hd]
  · intro hd
    constructor
    · rw [Sphere.Intersect, if_neg (not_lt.mpr hd)]
    · intro hle
      rw [Sphere.Intersect, if_neg (not_lt.mpr hd)]
      dsimp only
      rw [if_neg (fun hc => absurd hc.1 (not_lt.mpr hle))]
  · intro hd hA u
    have hpoly : ((r.Position.Add (r.Direction.Scale u)).Subtract sp.Center).Dot
          ((r.Position.Add (r.Direction.Scale u)).Subtract sp.Center)
          - sp.Radius * sp.Radius
        = sp.coefA r * u ^ 2 + sp.coefB r * u + sp.coefC r := by
      simp only [Vector.Dot, Vector.Add, Vector.Subtract, Vector.Scale,
        Sphere.coefA, Sphere.coefB, Sphere.coefC]
      ring
    constructor
    · intro heq
      have h0 : sp.coefA r * ((u - sp.root1 r) * (u - sp.root2 r)) = 0 := by
        rw [← sphere_quad_factor sp r hd hA u, ← hpoly, heq]
        ring
      rcases mul_eq_zero.mp h0 with h | h
      · exact absurd h hA
      · rcases mul_eq_zero.mp h with h | h
        · exact Or.inl (sub_eq_zero.mp h)
        · exact Or.inr (sub_eq_zero.mp h)
    · intro hu
      have h0 : sp.coefA r * u ^ 2 + sp.coefB r * u + sp.coefC r = 0 := by
        rw [sphere_quad_factor sp r hd hA u]
        rcases hu with h | h
        · rw [h]; ring
        · rw [h]; ring
      have := hpoly.trans h0
      linarith

/-- Witness for C4: the unit sphere at the origin and a ray from (0,0,-3)
along +z, whose discriminant is 4 and whose smaller root is 2. -/
theorem sphere_intersect_quadratic_witness :
    sphereW.Intersect rayW 20000 = (true, 2) := by
  have hA : sphereW.coefA rayW = 1 := by
    norm_num [Sphere.coefA, Vector.Dot, rayW, sphereW]
  have hB : sphereW.coefB rayW = -6 := by
    norm_num [Sphere.coefB, Vector.Dot, Vector.Subtract, rayW, sphereW]
  have hC : sphereW.coefC rayW = 8 := by
    norm_num [Sphere.coefC, Vector.Dot, Vector.Subtract, rayW, sphereW]
  have hdisc : sphereW.disc rayW = 4 := by
    rw [Sphere.disc, hA, hB, hC]; norm_num
  have hs4 : Real.sqrt 4 = 2 := by
    rw [show (4 : ℝ) = 2 ^ 2 by norm_num, Real.sqrt_sq (by norm_num : (0:ℝ) ≤ 2)]
  have hr1 : sphereW.root1 rayW = 4 := by
    rw [Sphere.root1, hdisc, hs4, hA, hB]; norm_num
  have hr2 : sphereW.root2 rayW = 2 := by
    rw [Sphere.root2, hdisc, hs4, hA, hB]; norm_num
  have h := ((sphere_intersect_quadratic sphereW rayW 20000).2.1 (by rw [hdisc]; norm_num)).1
  rw [h, hr1, hr2]
  rw [show min (4 : ℝ) 2 = 2 by norm_num [min_def]]
  norm_num

theorem Vector.magnitude_pos (v : Vector) (h : v ≠ ⟨0, 0, 0⟩) : 0 < v.Magnitude :=
  lt_of_le_of_ne v.magnitude_nonneg
    (fun h0 => h (v.magnitude_eq_zero_iff.mp h0.symm))

/-- Scaling a vector by the inverse of its (positive) magnitude yields a unit
vector. -/
theorem magnitude_scale_inv (v : Vector) (h : 0 < v.Magnitude) :
    (v.Scale (1 / v.Magnitude)).Magnitude = 1 := by
  rw [Vector.magnitude_scale, abs_of_pos (by positivity)]
  field_simp

/-- Folding additive contributions over a filtered list equals folding guarded
contributions over the whole list. -/
theorem foldl_filter_guard (p : Light → Bool) (f : Light → Color) :
    ∀ (ls : List Light) (c : Color),
      (ls.filter p).foldl (fun c l => c.add (f l)) c
        = ls.foldl (fun c l => c.add (if p l then f l else ⟨0, 0, 0⟩)) c := by
  intro ls
  induction ls with
  | nil => intro c; rfl
  | cons a t ih =>
    intro c
    by_cases hp : p a = true
    · rw [List.filter_cons_of_pos hp, List.foldl_cons, List.foldl_cons, ih, if_pos hp]
    · rw [List.filter_cons_of_neg (by simpa using hp), List.foldl_cons, ih, if_neg hp,
        Color.add_zero_right]

/-- Under a unit surface normal, the per-light Phong contribution of the
source equals the guarded spec-model contribution: back-facing or coincident
lights contribute zero, and for front-facing lights the reflected direction
is already a unit vector, so the source's renormalization is the identity and
both sides compute the same diffuse and specular terms. -/
theorem phongTerm_eq_spec (light : Light) (viewer position normal : Vector)
    (material : Material) (hN : normal.Magnitude = 1) :
    phongTerm light viewer position normal material =
      (if phongVisible position normal light
        then phongSpecTerm light viewer position normal material
        else ⟨0, 0, 0⟩) := by
  by_cases h1 : 0 < normal.Dot (light.Position.Subtract position)
  · have hdz : light.Position.Subtract position ≠ ⟨0, 0, 0⟩ := by
      intro h0
      rw [h0] at h1
      simp [Vector.Dot] at h1
    have hmagpos : 0 < (light.Position.Subtract position).Magnitude :=
      (light.Position.Subtract position).magnitude_pos hdz
    have hvis : phongVisible position normal light = true := by
      simp [phongVisible, h1, hmagpos]
    rw [hvis, if_pos rfl]
    have hnl : (light.Position.Subtract position).Normalize
        = ((light.Position.Subtract position).Scale
            (1 / (light.Position.Subtract position).Magnitude), true) := by
      rw [Vector.Normalize]
      rw [if_neg (not_le.mpr hmagpos)]
    set L := (light.Position.Subtract position).Scale
      (1 / (light.Position.Subtract position).Magnitude) with hL
    have hLmag : L.Magnitude = 1 := magnitude_scale_inv _ hmagpos
    have hLdot : L.Dot L = 1 := L.dot_self_of_magnitude_one hLmag
    have hNdot : normal.Dot normal = 1 := normal.dot_self_of_magnitude_one hN
    set R := (normal.Scale (2 * L.Dot normal)).Subtract L with hR
    have hRdot : R.Dot R = 1 := by
      have hexp : R.Dot R = 4 * (L.Dot normal) ^ 2 * (normal.Dot normal)
          - 4 * (L.Dot normal) ^ 2 + L.Dot L := by
        rw [hR]
        simp only [Vector.Dot, Vector.Scale, Vector.Subtract]
        ring
      rw [hexp, hNdot, hLdot]
      ring
    have hRmag : R.Magnitude = 1 := by
      rw [Vector.Magnitude, hRdot, Real.sqrt_one]
    have hnr : R.Normalize = (R.Scale (1 / R.Magnitude), true) := by
      rw [Vector.Normalize]
      rw [if_neg]
      rw [hRmag]
      norm_num
    have hRscale : R.Scale (1 / R.Magnitude) = R := by
      rw [hRmag, show (1 : ℝ) / 1 = 1 by norm_num, Vector.scale_one]
    have hcoef : (if max 0 (R.Dot viewer) ≤ 0 then (0 : ℝ)
          else (max 0 (R.Dot viewer)) ^ material.Alpha)
        = (if R.Dot viewer ≤ 0 then (0 : ℝ)
          else (max 0 (R.Dot viewer)) ^ material.Alpha) := by
      by_cases hrv : R.Dot viewer ≤ 0
      · rw [if_pos (max_le le_rfl hrv), if_pos hrv]
      · rw [if_neg (fun hc => hrv (le_trans (le_max_right 0 _) hc)), if_neg hrv]
    rw [phongTerm, phongSpecTerm]
    dsimp only
    rw [if_neg (not_le.mpr h1), hnl]
    dsimp only
    rw [← hL, ← hR, hnr]
    dsimp only
    rw [hRscale, hcoef]
    simp
  · have hvis : phongVisible position normal light = false := by
      simp [phongVisible]
      intro hc
      exact absurd hc h1
    rw [hvis]
    rw [phongTerm]
    dsimp only
    rw [if_pos (not_lt.mp h1)]
    rfl

/-- C5: with a unit surface normal, PhongReflectance equals the spec model:
the sum over front-facing, normalizable lights of the diffuse term
max(0, L.N) * lightDiffuse * materialDiffuse plus the specular term
specCoef * lightSpecular * materialSpecular with
specCoef = max(0, R.V)^alpha forced to 0 whenever R.V is nonpositive, plus
the global ambient term ambientLight * materialAmbient added exactly once,
independently of the light list (also when it is empty). -/
theorem phong_reflectance_spec (lights : List Light) (ambientLight : Color)
    (viewer position normal : Vector) (material : Material)
    (hN : normal.Magnitude = 1) :
    PhongReflectance lights ambientLight viewer position normal material
      = phongSpecModel lights ambientLight viewer position normal material := by
  rw [PhongReflectance, phongSpecModel]
  rw [foldl_filter_guard]
  have hfold : List.foldl
      (fun c light => c.add (phongTerm light viewer position normal material))
      (⟨0, 0, 0⟩ : Color) lights
      = List.foldl
      (fun c l => c.add (if phongVisible position normal l = true
        then phongSpecTerm l viewer position normal material
        else (⟨0, 0, 0⟩ : Color)))
      (⟨0, 0, 0⟩ : Color) lights := by
    apply List.foldl_ext
    intro c l hl
    rw [phongTerm_eq_spec l viewer position normal material hN]
  rw [hfold]

/-- Witness for C5 at a concrete unit normal (0,0,1), one light at (0,0,2),
the origin as position and unit material coefficients. -/
theorem phong_reflectance_spec_witness :
    PhongReflectance [lightW] ⟨1, 1, 1⟩ ⟨0, 0, 1⟩ ⟨0, 0, 0⟩ ⟨0, 0, 1⟩ materialW
      = phongSpecModel [lightW] ⟨1, 1, 1⟩ ⟨0, 0, 1⟩ ⟨0, 0, 0⟩ ⟨0, 0, 1⟩ materialW :=
  phong_reflectance_spec [lightW] ⟨1, 1, 1⟩ ⟨0, 0, 1⟩ ⟨0, 0, 0⟩ ⟨0, 0, 1⟩ materialW (by
    have : ((⟨0, 0, 1⟩ : Vector).Dot ⟨0, 0, 1⟩) = 1 := by norm_num [Vector.Dot]
    rw [Vector.Magnitude, this, Real.sqrt_one])

end Raytracer
